import Mathlib

/-!
Shallow embedding of the search result-shaping pipeline of
readthedocs/search/serializers.py: highlight reading (get_raw_field and the
highlight serializers), per-session project-metadata caching
(_get_project_data), link resolution (_get_full_path, get_domain, get_path)
and inner-result merging (get_blocks), together with the page/project
serializers built from them.

Python strings are modelled as lists of characters (Str); ES attribute
objects and dictionaries are modelled as association lists where the first
binding wins, matching attribute lookup; the mutable per-session
projects_data dictionary is threaded explicitly, together with a counter of
database (registry) lookups performed.  Fallible operations return Option.
-/

namespace RTD

/-- Character-list strings, used for paths and URLs so that the stripping,
splitting and regex rewriting done by the Python code can be reasoned about
elementwise. -/
abbrev Str := List Char

/-- A highlight object (an ES AttrDict): field name to list of fragment
strings.  ES highlight values are always lists of fragments. -/
abbrev HL := List (String × List String)

/-- Attribute lookup on an association list, modelling Python getattr on ES
attribute objects (first binding wins, absent key gives the default at the
call site via Option). -/
def assocGet {ν : Type} : List (String × ν) → String → Option ν
  | [], _ => none
  | (k', v) :: rest, k => if k' == k then some v else assocGet rest k

/-- Attribute update, modelling Python setattr / dict item assignment:
replaces an existing binding in place, or appends a new one. -/
def assocSet {ν : Type} : List (String × ν) → String → ν → List (String × ν)
  | [], k, v => [(k, v)]
  | (k', v') :: rest, k, v =>
    if k' == k then (k, v) :: rest else (k', v') :: assocSet rest k v

/-- Embeds get_raw_field: getattr(obj, field + ".raw", default) or
getattr(obj, field, default).  Python's or returns the second operand when
the first is falsy; highlight values are lists, whose truthiness is
non-emptiness.  Every caller in the source passes [] as the default. -/
def get_raw_field (obj : HL) (field : String) (dflt : List String) :
    List String :=
  let raw := (assocGet obj (field ++ ".raw")).getD dflt
  if raw.isEmpty then (assocGet obj field).getD dflt else raw

/-- ProjectHighlightSerializer: the three SerializerMethodFields, each
list(get_raw_field(obj, f, [])).  A missing meta.highlight serializes the
default empty dict, on which every getattr falls back to the default. -/
def projectHighlights (hl : Option HL) : List (String × List String) :=
  let obj := hl.getD []
  [("name", get_raw_field obj "name" []),
   ("slug", get_raw_field obj "slug" []),
   ("description", get_raw_field obj "description" [])]

/-- PageHighlightSerializer. -/
def pageHighlights (hl : Option HL) : List (String × List String) :=
  let obj := hl.getD []
  [("title", get_raw_field obj "title" [])]

/-- DomainHighlightSerializer. -/
def domainHighlights (hl : Option HL) : List (String × List String) :=
  let obj := hl.getD []
  [("name", get_raw_field obj "domains.name" []),
   ("content", get_raw_field obj "domains.docstrings" [])]

/-- SectionHighlightSerializer. -/
def sectionHighlights (hl : Option HL) : List (String × List String) :=
  let obj := hl.getD []
  [("title", get_raw_field obj "sections.title" []),
   ("content", get_raw_field obj "sections.content" [])]

/-- A nested inner hit (a raw section or domain sub-hit): its string
attributes (id/title/content resp. role_name/name/anchor/docstrings, and
possibly a pre-existing type attribute), its meta.highlight and its
meta.score. -/
structure SubHit where
  attrs : List (String × String)
  highlight : Option HL
  score : Rat
deriving DecidableEq

/-- A raw page hit: the scalar fields read by PageSearchSerializer plus the
two inner-hit groups (meta.inner_hits.sections or [] and .domains or []). -/
structure PageHit where
  project : String
  version : String
  title : String
  full_path : Str
  doctype : String
  highlight : Option HL
  sections : List SubHit
  domains : List SubHit
deriving DecidableEq

/-- A raw project hit, as read by ProjectSearchSerializer. -/
structure ProjectHit where
  name : String
  slug : String
  url : String
  description : String
  highlight : Option HL
deriving DecidableEq

/-- VersionData namedtuple. -/
structure VersionData where
  slug : String
  docs_url : Str
deriving DecidableEq

/-- ProjectData namedtuple. -/
structure ProjectData where
  version : VersionData
  alias' : Option String
deriving DecidableEq

/-- A registry project row: Project.get_docs_url(version_slug=...) and the
first superproject alias (None when there is none). -/
structure RegProject where
  docs_url_for : String → Str
  alias' : Option String

/-- The project registry: Project.objects.filter(slug=...).first(). -/
abbrev Registry := String → Option RegProject

/-- The per-session projects_data dictionary from the serializer context,
mapping a project slug to its cached ProjectData. -/
abbrev Cache := List (String × ProjectData)

/-- Embeds PageSearchSerializer._get_project_data.  Returns the resolved
data (None when the project is not in the registry), the projects_data
dictionary after the call, and the number of registry lookups performed.
A cached ProjectData namedtuple is always truthy, so the early return fires
exactly when the slug is present in the dictionary. -/
def get_project_data (reg : Registry) (cache : Cache) (h : PageHit) :
    Option ProjectData × Cache × Nat :=
  match assocGet cache h.project with
  | some pd => (some pd, cache, 0)
  | none =>
    match reg h.project with
    | some proj =>
      let vd : VersionData := ⟨h.version, proj.docs_url_for h.version⟩
      let pd : ProjectData := ⟨vd, proj.alias'⟩
      (some pd, assocSet cache h.project pd, 1)
    | none => (none, cache, 1)

/-- Embeds PageSearchSerializer.get_project_alias. -/
def get_project_alias (reg : Registry) (cache : Cache) (h : PageHit) :
    Option String × Cache × Nat :=
  match get_project_data reg cache h with
  | (some pd, c, n) => (pd.alias', c, n)
  | (none, c, n) => (none, c, n)

/-- Values of the constants SPHINX_HTMLDIR and MKDOCS imported from
readthedocs.projects.constants (a module outside this file); only
membership of obj.doctype in the two-element set matters here. -/
def directoryDoctypes : List String := ["sphinx_htmldir", "mkdocs"]

/-- The last-ten-character shape matched by the regex fragment index.html
where the dot is an unescaped wildcard: any character other than a newline
in the dot position. -/
def isIndexHtmlPat : Str → Bool
  | ['i', 'n', 'd', 'e', 'x', c, 'h', 't', 'm', 'l'] => !(c == '\n')
  | _ => false

/-- Embeds re.sub with pattern (^|/)index.html$ and replacement /.  The
anchored pattern can match at most once: the last ten characters must fit
index.html (dot = any non-newline character) and be preceded by the start
of the string or by a slash, which is consumed and replaced by the
replacement slash.  (Python's dollar would additionally match just before a
trailing newline; this model takes dollar as end-of-string, which agrees
with Python on every path not ending in a newline.) -/
def rewriteIndexHtml (p : Str) : Str :=
  let n := p.length
  if 10 ≤ n && isIndexHtmlPat (List.drop (n - 10) p) &&
      (n == 10 || (List.take (n - 10) p).getLast? == some '/')
  then (if n == 10 then ['/'] else List.take (n - 10) p)
  else p

/-- The relative path used by _get_full_path: obj.full_path, rewritten when
obj.doctype is one of the directory-style doctypes. -/
def pathAfterRewrite (h : PageHit) : Str :=
  if directoryDoctypes.contains h.doctype then rewriteIndexHtml h.full_path
  else h.full_path

/-- Python str.rstrip with a slash argument: remove every trailing slash. -/
def rstripSlash (l : Str) : Str :=
  (List.dropWhile (fun c => c == '/') l.reverse).reverse

/-- Python str.lstrip with a slash argument: remove every leading slash. -/
def lstripSlash (l : Str) : Str :=
  List.dropWhile (fun c => c == '/') l

/-- Embeds PageSearchSerializer._get_full_path. -/
def get_full_path (reg : Registry) (cache : Cache) (h : PageHit) :
    Option Str × Cache × Nat :=
  match get_project_data reg cache h with
  | (some pd, c, n) =>
    (some (rstripSlash pd.version.docs_url ++ '/' :: lstripSlash (pathAfterRewrite h)),
     c, n)
  | (none, c, n) => (none, c, n)

/-- Splits a string at the first occurrence of sep: l = pre ++ sep ++ post
with the shortest possible pre, or none when sep does not occur. -/
def splitFirstSublist (sep : Str) : Str → Option (Str × Str)
  | [] => if sep.isEmpty then some ([], []) else none
  | c :: rest =>
    if sep.isPrefixOf (c :: rest) then
      some ([], List.drop sep.length (c :: rest))
    else (splitFirstSublist sep rest).map (fun pr => (c :: pr.1, pr.2))

/-- Models urllib.parse.urlparse restricted to the URLs this module builds:
scheme://netloc/path with no query, fragment or params (these never occur
in a docs_url joined with a documentation file path).  Returns
(scheme, netloc, path); without a scheme separator everything is path, as
in urlparse of a relative reference. -/
def urlsplit3 (url : Str) : Str × Str × Str :=
  match splitFirstSublist [':', '/', '/'] url with
  | some (scheme, rest) =>
    (scheme, List.takeWhile (fun c => !(c == '/')) rest,
     List.dropWhile (fun c => !(c == '/')) rest)
  | none => ([], [], url)

/-- Embeds PageSearchSerializer.get_domain: on a truthy full path, the
f-string scheme://netloc of its parse. -/
def get_domain (reg : Registry) (cache : Cache) (h : PageHit) :
    Option Str × Cache × Nat :=
  match get_full_path reg cache h with
  | (some fp, c, n) =>
    (if fp.isEmpty then none
     else some ((urlsplit3 fp).1 ++ ':' :: '/' :: '/' :: (urlsplit3 fp).2.1),
     c, n)
  | (none, c, n) => (none, c, n)

/-- Embeds PageSearchSerializer.get_path: on a truthy full path, the path
component of its parse. -/
def get_path (reg : Registry) (cache : Cache) (h : PageHit) :
    Option Str × Cache × Nat :=
  match get_full_path reg cache h with
  | (some fp, c, n) =>
    (if fp.isEmpty then none else some (urlsplit3 fp).2.2, c, n)
  | (none, c, n) => (none, c, n)

/-- The in-place tagging done at the top of get_blocks: s.type = t. -/
def tagType (t : String) (s : SubHit) : SubHit :=
  { s with attrs := assocSet s.attrs "type" t }

/-- The combined inner-hit sequence of get_blocks after tagging: the
sections group (each tagged section) followed by the domains group (each
tagged domain), in index order. -/
def taggedInner (h : PageHit) : List SubHit :=
  h.sections.map (tagType "section") ++ h.domains.map (tagType "domain")

/-- One step of the stable descending-by-score sort: insert a before the
first element whose score is less than or equal to a's. -/
def insertDesc (a : SubHit) : List SubHit → List SubHit
  | [] => [a]
  | b :: l => if b.score ≤ a.score then a :: b :: l else b :: insertDesc a l

/-- Stable sort by meta.score descending, embedding Python's stable
sorted(..., key=attrgetter("meta.score"), reverse=True): among equal
scores the pre-sort relative order is kept. -/
def sortDesc : List SubHit → List SubHit
  | [] => []
  | a :: l => insertDesc a (sortDesc l)

/-- The output record of DomainSearchSerializer.  CharField values are the
looked-up attributes (an Option: a missing required attribute would fail
serialization). -/
structure DomainResult where
  type : String
  role : Option String
  name : Option String
  id : Option String
  content : Option String
  highlights : List (String × List String)
deriving DecidableEq

/-- The output record of SectionSearchSerializer. -/
structure SectionResult where
  type : String
  id : Option String
  title : Option String
  content : Option String
  highlights : List (String × List String)
deriving DecidableEq

/-- One entry of the blocks list. -/
inductive Block where
  | dom (r : DomainResult)
  | sec (r : SectionResult)
deriving DecidableEq

/-- DomainSearchSerializer on a sub-hit: type, role (source role_name),
name, id (source anchor), content (source docstrings), highlights. -/
def serializeDomain (s : SubHit) : DomainResult :=
  ⟨"domain", assocGet s.attrs "role_name", assocGet s.attrs "name",
   assocGet s.attrs "anchor", assocGet s.attrs "docstrings",
   domainHighlights s.highlight⟩

/-- SectionSearchSerializer on a sub-hit. -/
def serializeSection (s : SubHit) : SectionResult :=
  ⟨"section", assocGet s.attrs "id", assocGet s.attrs "title",
   assocGet s.attrs "content", sectionHighlights s.highlight⟩

/-- The dispatch serializers[hit.type](hit).data of get_blocks: a missing
type attribute (AttributeError) or one outside the dictionary (KeyError)
raises, modelled as none. -/
def serializeBlock (s : SubHit) : Option Block :=
  match assocGet s.attrs "type" with
  | some t =>
    if t == "domain" then some (Block.dom (serializeDomain s))
    else if t == "section" then some (Block.sec (serializeSection s))
    else none
  | none => none

/-- Maps a fallible serializer over a list; any failure propagates, as an
exception raised inside the list comprehension would. -/
def optList {α β : Type} (f : α → Option β) : List α → Option (List β)
  | [] => some []
  | a :: l =>
    match f a, optList f l with
    | some b, some bs => some (b :: bs)
    | _, _ => none

/-- Embeds PageSearchSerializer.get_blocks: tag both inner-hit groups,
chain sections before domains, stable-sort by score descending, then
serialize each entry by its type. -/
def get_blocks (h : PageHit) : Option (List Block) :=
  optList serializeBlock (sortDesc (taggedInner h))

/-- The state of the raw page hit after get_blocks has returned: the
tagging loops have assigned the type attribute of every nested sub-hit in
place; nothing else is written. -/
def get_blocks_post (h : PageHit) : PageHit :=
  { h with sections := h.sections.map (tagType "section"),
           domains := h.domains.map (tagType "domain") }

/-- The id of a block, for stating merge-order results. -/
def blockId : Block → Option String
  | .dom r => r.id
  | .sec r => r.id

/-- The output record of PageSearchSerializer. -/
structure PageResult where
  type : String
  project : String
  project_alias : Option String
  version : String
  title : String
  path : Option Str
  domain : Option Str
  highlights : List (String × List String)
  blocks : Option (List Block)
deriving DecidableEq

/-- Embeds PageSearchSerializer on one page hit: fields are produced in
declaration order (type, project, project_alias, version, title, path,
domain, highlights, blocks), threading the shared projects_data context
through the method fields that consult it; returns the result, the
dictionary after the call and the total number of registry lookups. -/
def shapePage (reg : Registry) (cache : Cache) (h : PageHit) :
    PageResult × Cache × Nat :=
  let a := get_project_alias reg cache h
  let p := get_path reg a.2.1 h
  let d := get_domain reg p.2.1 h
  (⟨"page", h.project, a.1, h.version, h.title, p.1, d.1,
    pageHighlights h.highlight, get_blocks h⟩,
   d.2.1, a.2.2 + p.2.2 + d.2.2)

/-- The output record of ProjectSearchSerializer. -/
structure ProjectResult where
  type : String
  name : String
  slug : String
  link : String
  description : String
  highlights : List (String × List String)
deriving DecidableEq

/-- Embeds ProjectSearchSerializer: type, name, slug, link (source url),
description, highlights. -/
def shapeProject (h : ProjectHit) : ProjectResult :=
  ⟨"project", h.name, h.slug, h.url, h.description,
   projectHighlights h.highlight⟩

/-- Highlight object with a present but empty raw sibling. -/
def c3RawEmptyObj : HL := [("name.raw", []), ("name", ["Foo"])]

/-- Highlight object with a present, non-empty raw sibling (the spec's own
example). -/
def c3PreferObj : HL := [("name.raw", ["Foo Exact"]), ("name", ["Foo"])]

/-- Registry holding one project for the C4 witness. -/
def c4Reg : Registry := fun sl =>
  if sl == "proj" then
    some ⟨fun v => ("https://proj.example.io/en/" ++ v).toList,
          some "superalias"⟩
  else none

/-- Cached data for the C4 witness. -/
def c4Pd : ProjectData :=
  ⟨⟨"latest", "https://proj.example.io/en/latest".toList⟩, some "superalias"⟩

/-- Pre-populated session cache for the C4 witness. -/
def c4Cache : Cache := [("proj", c4Pd)]

/-- Page hit for the C4 witness. -/
def c4Hit : PageHit := ⟨"proj", "latest", "T", [], "sphinx", none, [], []⟩

/-- Empty registry for the C8 witness. -/
def c8Reg : Registry := fun _ => none

/-- Page hit whose project is in no registry, for the C8 witness. -/
def c8Hit : PageHit := ⟨"ghost", "latest", "T", [], "sphinx", none, [], []⟩

/-- Registry holding one project for the C10 witness. -/
def c10Reg : Registry := fun sl =>
  if sl == "proj" then
    some ⟨fun v => ("https://proj.example.io/en/" ++ v).toList, none⟩
  else none

/-- Page hit for project proj at version v1, for the C10 witness. -/
def c10Hit1 : PageHit := ⟨"proj", "v1", "T1", [], "sphinx", none, [], []⟩

/-- Page hit for the same project at a different version v2, for the C10
witness. -/
def c10Hit2 : PageHit := ⟨"proj", "v2", "T2", [], "sphinx", none, [], []⟩

/-- The descending-score relation the merged blocks list is sorted by. -/
def descBy (a b : SubHit) : Prop := b.score ≤ a.score

/-- Page hit realizing the spec's merge example: sections s1 (score 0.5)
and s2 (0.9), domains d1 (0.9) and d2 (0.3). -/
def c1Hit : PageHit :=
  ⟨"proj", "latest", "T", [], "sphinx", none,
   [⟨[("id", "s1")], none, ⟨1, 2, by decide, by decide⟩⟩,
    ⟨[("id", "s2")], none, ⟨9, 10, by decide, by decide⟩⟩],
   [⟨[("anchor", "d1")], none, ⟨9, 10, by decide, by decide⟩⟩,
    ⟨[("anchor", "d2")], none, ⟨3, 10, by decide, by decide⟩⟩]⟩

/-- Page hit with one untyped section sub-hit, for the C9 counterexample. -/
def c9Hit : PageHit :=
  ⟨"proj", "latest", "T", [], "sphinx", none,
   [⟨[("id", "s1")], none, ⟨1, 1, by decide, by decide⟩⟩], []⟩

/-- Page hit for the C9 witness. -/
def c9WitHit : PageHit :=
  ⟨"proj", "latest", "T", [], "sphinx", none,
   [⟨[("id", "s9"), ("title", "Intro")], none, ⟨2, 1, by decide, by decide⟩⟩],
   []⟩

/-- The section sub-hit of c9WitHit before shaping. -/
def c9WitSub : SubHit :=
  ⟨[("id", "s9"), ("title", "Intro")], none, ⟨2, 1, by decide, by decide⟩⟩

/-- Empty registry for the C5 witness. -/
def c5Reg : Registry := fun _ => none

/-- Fully-populated page hit whose project resolves nowhere, for the C5
witness. -/
def c5Hit : PageHit :=
  ⟨"ghost", "latest", "Title", "guide/index.html".toList, "sphinx_htmldir",
   some [("title", ["T fragment"])],
   [⟨[("id", "s1"), ("title", "Sec"), ("content", "c")], none,
     ⟨1, 1, by decide, by decide⟩⟩],
   [⟨[("role_name", "py:function"), ("name", "f"), ("anchor", "a"),
      ("docstrings", "d")], none, ⟨1, 2, by decide, by decide⟩⟩]⟩

/-- Page hit with a directory-style doctype and a path the unescaped regex
dot also matches, for C2. -/
def c2BugHit : PageHit :=
  ⟨"p", "v", "T", "guide/indexqhtml".toList, "sphinx_htmldir", none, [], []⟩

/-- The same path under a non-directory doctype, for C2. -/
def c2PlainHit : PageHit :=
  ⟨"p", "v", "T", "guide/indexqhtml".toList, "sphinx", none, [], []⟩

/-- Registry holding one project for the C6 witness; its docs base URL for
a version carries a trailing slash. -/
def c6Reg : Registry := fun sl =>
  if sl == "proj" then
    some ⟨fun v => ("https://proj.example.io/en/" ++ v ++ "/").toList, none⟩
  else none

/-- Page hit with a directory-style doctype for the C6 witness. -/
def c6Hit : PageHit :=
  ⟨"proj", "latest", "T", "guide/index.html".toList, "sphinx_htmldir", none,
   [], []⟩

/-- The project data c6Reg resolves for c6Hit. -/
def c6Pd : ProjectData :=
  ⟨⟨"latest", "https://proj.example.io/en/latest/".toList⟩, none⟩

/-! ## Helper lemmas -/

theorem assocGet_assocSet_same {ν : Type} (l : List (String × ν)) (k : String)
    (v : ν) : assocGet (assocSet l k v) k = some v := by
  induction l with
  | nil => simp [assocSet, assocGet]
  | cons p rest ih =>
    obtain ⟨k', v'⟩ := p
    by_cases hk : k' == k
    · simp [assocSet, hk, assocGet]
    · simp [assocSet, hk, assocGet, ih]

theorem assocGet_assocSet_ne {ν : Type} (l : List (String × ν)) (k f : String)
    (v : ν) (hf : f ≠ k) : assocGet (assocSet l k v) f = assocGet l f := by
  induction l with
  | nil =>
    simp [assocSet, assocGet, beq_iff_eq]
    intro hkf
    exact absurd hkf.symm hf
  | cons p rest ih =>
    obtain ⟨k', v'⟩ := p
    by_cases hk : k' == k
    · have hk' : k' = k := by simpa [beq_iff_eq] using hk
      subst hk'
      simp [assocSet, assocGet, beq_iff_eq, Ne.symm hf]
    · simp [assocSet, hk, assocGet, ih]

theorem insertDesc_perm (a : SubHit) (l : List SubHit) :
    List.Perm (insertDesc a l) (a :: l) := by
  induction l with
  | nil => exact List.Perm.refl _
  | cons b l ih =>
    by_cases hb : b.score ≤ a.score
    · simp [insertDesc, hb]
    · simp only [insertDesc, if_neg hb]
      exact (ih.cons b).trans (List.Perm.swap a b l)

theorem sortDesc_perm (l : List SubHit) : List.Perm (sortDesc l) l := by
  induction l with
  | nil => exact List.Perm.refl _
  | cons a l ih => exact (insertDesc_perm a (sortDesc l)).trans (ih.cons a)

theorem insertDesc_pairwise (a : SubHit) (l : List SubHit)
    (hl : l.Pairwise descBy) : (insertDesc a l).Pairwise descBy := by
  induction l with
  | nil => simp [insertDesc, descBy]
  | cons b l ih =>
    rw [List.pairwise_cons] at hl
    obtain ⟨hb, hl'⟩ := hl
    by_cases hba : b.score ≤ a.score
    · simp only [insertDesc, if_pos hba]
      refine List.Pairwise.cons ?_ (List.Pairwise.cons hb hl')
      intro y hy
      rcases List.mem_cons.mp hy with rfl | hyl
      · exact hba
      · exact (hb y hyl).trans hba
    · simp only [insertDesc, if_neg hba]
      refine List.Pairwise.cons ?_ (ih hl')
      intro y hy
      rcases List.mem_cons.mp ((insertDesc_perm a l).subset hy) with rfl | hyl
      · exact le_of_not_le hba
      · exact hb y hyl

theorem sortDesc_pairwise (l : List SubHit) :
    (sortDesc l).Pairwise descBy := by
  induction l with
  | nil => exact List.Pairwise.nil
  | cons a l ih => exact insertDesc_pairwise a (sortDesc l) ih

theorem insertDesc_filter (a : SubHit) (l : List SubHit) (q : Rat) :
    (insertDesc a l).filter (fun x => decide (x.score = q)) =
      if a.score = q then a :: l.filter (fun x => decide (x.score = q))
      else l.filter (fun x => decide (x.score = q)) := by
  induction l with
  | nil => by_cases h : a.score = q <;> simp [insertDesc, h]
  | cons b l ih =>
    by_cases hba : b.score ≤ a.score
    · simp only [insertDesc, if_pos hba]
      by_cases h : a.score = q <;> simp [List.filter_cons, h]
    · simp only [insertDesc, if_neg hba]
      by_cases h : a.score = q
      · have hbq : ¬ (b.score = q) := by
          intro hbq
          exact hba (le_of_eq (hbq.trans h.symm))
        simp [List.filter_cons, hbq, ih, h]
      · by_cases hbq : b.score = q <;> simp [List.filter_cons, hbq, ih, h]

theorem sortDesc_filter (l : List SubHit) (q : Rat) :
    (sortDesc l).filter (fun x => decide (x.score = q)) =
      l.filter (fun x => decide (x.score = q)) := by
  induction l with
  | nil => rfl
  | cons a l ih =>
    by_cases h : a.score = q <;>
      simp [sortDesc, insertDesc_filter, List.filter_cons, h, ih]

theorem optList_isSome {α β : Type} (f : α → Option β) (l : List α)
    (hall : ∀ x ∈ l, (f x).isSome = true) : ∃ bs, optList f l = some bs := by
  induction l with
  | nil => exact ⟨[], rfl⟩
  | cons a l ih =>
    obtain ⟨b, hb⟩ := Option.isSome_iff_exists.mp (hall a (List.mem_cons_self a l))
    obtain ⟨bs, hbs⟩ := ih (fun x hx => hall x (List.mem_cons_of_mem a hx))
    exact ⟨b :: bs, by simp [optList, hb, hbs]⟩

theorem serializeBlock_tagged (h : PageHit) :
    ∀ x ∈ taggedInner h, (serializeBlock x).isSome = true := by
  intro x hx
  rcases List.mem_append.mp hx with hx | hx
  · obtain ⟨y, hy, rfl⟩ := List.mem_map.mp hx
    simp [serializeBlock, tagType, assocGet_assocSet_same]
  · obtain ⟨y, hy, rfl⟩ := List.mem_map.mp hx
    simp [serializeBlock, tagType, assocGet_assocSet_same]

theorem get_blocks_isSome (h : PageHit) : ∃ bs, get_blocks h = some bs := by
  apply optList_isSome
  intro x hx
  exact serializeBlock_tagged h x ((sortDesc_perm (taggedInner h)).subset hx)

theorem dropWhile_append_stop (q : Char → Bool) (X Y : Str)
    (hY : ∀ c, Y.head? = some c → q c = false) :
    List.dropWhile q (X ++ Y) = List.dropWhile q X ++ Y := by
  induction X with
  | nil =>
    simp only [List.nil_append, List.dropWhile_nil]
    cases Y with
    | nil => rfl
    | cons c Y' =>
      rw [List.dropWhile_cons]
      simp [hY c rfl]
  | cons x X' ih =>
    rw [List.cons_append, List.dropWhile_cons, List.dropWhile_cons]
    by_cases hx : q x
    · simp [hx, ih]
    · simp [hx]

theorem takeWhile_append_all (q : Char → Bool) (X Y : Str)
    (hX : ∀ c ∈ X, q c = true) :
    List.takeWhile q (X ++ Y) = X ++ List.takeWhile q Y := by
  induction X with
  | nil => simp
  | cons x X' ih =>
    rw [List.cons_append, List.takeWhile_cons]
    simp [hX x (List.mem_cons_self x X'),
      ih (fun c hc => hX c (List.mem_cons_of_mem x hc))]

theorem dropWhile_append_all (q : Char → Bool) (X Y : Str)
    (hX : ∀ c ∈ X, q c = true) :
    List.dropWhile q (X ++ Y) = List.dropWhile q Y := by
  induction X with
  | nil => simp
  | cons x X' ih =>
    rw [List.cons_append, List.dropWhile_cons]
    simp only [hX x (List.mem_cons_self x X'), if_true]
    exact ih (fun c hc => hX c (List.mem_cons_of_mem x hc))

theorem dropWhile_suffix_exists (q : Char → Bool) (l : Str) :
    ∃ u, u ++ List.dropWhile q l = l := by
  induction l with
  | nil => exact ⟨[], rfl⟩
  | cons c l ih =>
    by_cases hc : q c
    · obtain ⟨u, hu⟩ := ih
      exact ⟨c :: u, by simp [List.dropWhile_cons, hc, hu]⟩
    · exact ⟨[], by simp [List.dropWhile_cons, hc]⟩

theorem rstripSlash_append (A B : Str)
    (hA : ∀ c, A.getLast? = some c → ((c == '/') : Bool) = false) :
    rstripSlash (A ++ B) = A ++ rstripSlash B := by
  have hstop : ∀ c, A.reverse.head? = some c → ((c == '/') : Bool) = false := by
    intro c hc
    rw [List.head?_reverse] at hc
    exact hA c hc
  unfold rstripSlash
  rw [List.reverse_append, dropWhile_append_stop _ _ _ hstop,
    List.reverse_append, List.reverse_reverse]

theorem rstripSlash_head (l : Str) :
    rstripSlash l = [] ∨ (rstripSlash l).head? = l.head? := by
  obtain ⟨u, hu⟩ := dropWhile_suffix_exists (fun c => c == '/') l.reverse
  have h2 : rstripSlash l ++ u.reverse = l := by
    have h3 := congrArg List.reverse hu
    rw [List.reverse_append] at h3
    simpa [rstripSlash] using h3
  cases hr : rstripSlash l with
  | nil => exact Or.inl rfl
  | cons a t =>
    right
    rw [← h2, hr]
    rfl

theorem splitFirstSublist_sep (s t : Str) (hs : ∀ c ∈ s, c ≠ ':') :
    splitFirstSublist [':', '/', '/'] (s ++ ':' :: '/' :: '/' :: t) =
      some (s, t) := by
  induction s with
  | nil =>
    rw [List.nil_append, splitFirstSublist]
    simp [List.isPrefixOf]
  | cons c s' ih =>
    have hc : ((':' == c) : Bool) = false := by
      simp only [beq_eq_false_iff_ne, ne_eq]
      exact fun he => (hs c (List.mem_cons_self c s')) he.symm
    rw [List.cons_append, splitFirstSublist]
    simp only [List.isPrefixOf, hc, Bool.false_and, Bool.false_eq_true,
      if_false]
    rw [ih (fun x hx => hs x (List.mem_cons_of_mem c hx))]
    rfl

/-! ## Claims -/

/-- C1: get_blocks concatenates the tagged sections group before the tagged
domains group, sorts the combined sequence by score in descending order
(adjacent scores are non-increasing), as a permutation of the input, and
stably: for every score value, the entries carrying it keep exactly their
pre-sort relative order.  On the spec's concrete example the resulting
block ids are [s2, d1, s1, d2]. -/
theorem C1_blocks_merge :
    (∀ h : PageHit,
      get_blocks h = optList serializeBlock (sortDesc (taggedInner h)) ∧
      (sortDesc (taggedInner h)).Pairwise descBy ∧
      List.Perm (sortDesc (taggedInner h)) (taggedInner h) ∧
      (∀ q : Rat,
        (sortDesc (taggedInner h)).filter (fun x => decide (x.score = q)) =
          (taggedInner h).filter (fun x => decide (x.score = q)))) ∧
    (get_blocks c1Hit).map (fun bs => bs.map blockId) =
      some [some "s2", some "d1", some "s1", some "d2"] := by
  constructor
  · intro h
    exact ⟨rfl, sortDesc_pairwise _, sortDesc_perm _,
      fun q => sortDesc_filter _ q⟩
  · decide

/-- C9, counterexample.  The claim says shaping never mutates its input;
but get_blocks assigns the type attribute of every nested sub-hit in place,
so after the call the hit's section sub-hit differs from its pre-call
value. -/
theorem C9_counterexample : get_blocks_post c9Hit ≠ c9Hit := by decide

/-- C9 (amended): shaping leaves every field of the raw page hit unchanged
except that the in-place tagging of get_blocks sets the type attribute of
each nested section sub-hit to section and of each domain sub-hit to
domain; every other attribute, the highlight data and the score of every
sub-hit are preserved. -/
theorem map_tagType_getElem (t : String) (l : List SubHit) (i : Nat)
    (pre post : SubHit) (hpre : l[i]? = some pre)
    (hpost : (l.map (tagType t))[i]? = some post) :
    post = tagType t pre := by
  rw [List.getElem?_map, hpre, Option.map_some'] at hpost
  exact (Option.some_inj.mp hpost).symm

theorem C9_tagging_frame (h : PageHit) :
    ((get_blocks_post h).project = h.project ∧
     (get_blocks_post h).version = h.version ∧
     (get_blocks_post h).title = h.title ∧
     (get_blocks_post h).full_path = h.full_path ∧
     (get_blocks_post h).doctype = h.doctype ∧
     (get_blocks_post h).highlight = h.highlight) ∧
    ((get_blocks_post h).sections.length = h.sections.length ∧
     (get_blocks_post h).domains.length = h.domains.length) ∧
    (∀ (i : Nat) (pre post : SubHit), h.sections[i]? = some pre →
      (get_blocks_post h).sections[i]? = some post →
      post.score = pre.score ∧ post.highlight = pre.highlight ∧
      assocGet post.attrs "type" = some "section" ∧
      (∀ f, f ≠ "type" → assocGet post.attrs f = assocGet pre.attrs f)) ∧
    (∀ (i : Nat) (pre post : SubHit), h.domains[i]? = some pre →
      (get_blocks_post h).domains[i]? = some post →
      post.score = pre.score ∧ post.highlight = pre.highlight ∧
      assocGet post.attrs "type" = some "domain" ∧
      (∀ f, f ≠ "type" → assocGet post.attrs f = assocGet pre.attrs f)) := by
  refine ⟨⟨rfl, rfl, rfl, rfl, rfl, rfl⟩,
    ⟨by simp [get_blocks_post], by simp [get_blocks_post]⟩, ?_, ?_⟩
  all_goals
    intro i pre post hpre hpost
    obtain rfl := map_tagType_getElem _ _ i pre post hpre hpost
    refine ⟨rfl, rfl, assocGet_assocSet_same _ _ _, fun f hf => ?_⟩
    exact assocGet_assocSet_ne _ _ _ _ hf

/-- C9, witness: on a concrete hit, the post-call section sub-hit keeps its
id attribute and carries the newly written type attribute. -/
theorem C9_tagging_frame_witness :
    ∃ post, (get_blocks_post c9WitHit).sections[0]? = some post ∧
      assocGet post.attrs "id" = some "s9" ∧
      assocGet post.attrs "type" = some "section" := by
  have hm := C9_tagging_frame c9WitHit
  obtain ⟨-, -, hsec, -⟩ := hm
  have h0 := hsec 0 c9WitSub (tagType "section" c9WitSub) rfl rfl
  refine ⟨tagType "section" c9WitSub, rfl, ?_, h0.2.2.1⟩
  rw [h0.2.2.2 "id" (by decide)]
  decide

/-- C5: a page hit whose project is neither in the pre-supplied cache nor
in the registry still shapes without failing: path, domain and
project_alias are all absent, while type, project, version, title,
highlights and blocks are all still populated. -/
theorem C5_unresolvable_project_degrades (reg : Registry) (cache : Cache)
    (h : PageHit) (hc : assocGet cache h.project = none)
    (hr : reg h.project = none) :
    (shapePage reg cache h).1.path = none ∧
    (shapePage reg cache h).1.domain = none ∧
    (shapePage reg cache h).1.project_alias = none ∧
    (shapePage reg cache h).1.type = "page" ∧
    (shapePage reg cache h).1.project = h.project ∧
    (shapePage reg cache h).1.version = h.version ∧
    (shapePage reg cache h).1.title = h.title ∧
    (shapePage reg cache h).1.highlights = pageHighlights h.highlight ∧
    (∃ bs, (shapePage reg cache h).1.blocks = some bs) := by
  have hpd : get_project_data reg cache h = (none, cache, 1) := by
    simp [get_project_data, hc, hr]
  refine ⟨?_, ?_, ?_, rfl, rfl, rfl, rfl, rfl, ?_⟩
  · simp [shapePage, get_project_alias, get_path, get_domain, get_full_path, hpd]
  · simp [shapePage, get_project_alias, get_path, get_domain, get_full_path, hpd]
  · simp [shapePage, get_project_alias, get_path, get_domain, get_full_path, hpd]
  · exact get_blocks_isSome h

/-- C5, witness: the degradation at a concrete fully-populated hit with an
empty registry. -/
theorem C5_witness :
    (shapePage c5Reg [] c5Hit).1.path = none ∧
    (shapePage c5Reg [] c5Hit).1.domain = none ∧
    (shapePage c5Reg [] c5Hit).1.project_alias = none ∧
    (shapePage c5Reg [] c5Hit).1.type = "page" ∧
    (shapePage c5Reg [] c5Hit).1.project = c5Hit.project ∧
    (shapePage c5Reg [] c5Hit).1.version = c5Hit.version ∧
    (shapePage c5Reg [] c5Hit).1.title = c5Hit.title ∧
    (shapePage c5Reg [] c5Hit).1.highlights = pageHighlights c5Hit.highlight ∧
    (∃ bs, (shapePage c5Reg [] c5Hit).1.blocks = some bs) :=
  C5_unresolvable_project_degrades c5Reg [] c5Hit rfl rfl

/-- C2, code evaluation.  The regex dot in (^|/)index.html$ is unescaped,
so the code also rewrites paths whose trailing segment is not literally
index.html: guide/indexqhtml and guide/index/html both become guide/, which
the claim says are left unchanged.  The claim's own examples behave as it
states, and a non-directory doctype is never rewritten. -/
theorem C2_code_eval :
    rewriteIndexHtml "guide/index.html".toList = "guide/".toList ∧
    rewriteIndexHtml "guide/usage.html".toList = "guide/usage.html".toList ∧
    rewriteIndexHtml "myindex.html".toList = "myindex.html".toList ∧
    rewriteIndexHtml "guide/indexqhtml".toList = "guide/".toList ∧
    rewriteIndexHtml "guide/index/html".toList = "guide/".toList ∧
    pathAfterRewrite c2BugHit = "guide/".toList ∧
    pathAfterRewrite c2PlainHit = "guide/indexqhtml".toList := by
  refine ⟨by decide, by decide, by decide, by decide, by decide, by decide,
    by decide⟩

/-- C3, counterexample.  The claim says get_raw_field returns the raw
sibling field whenever it is present, even when its value is empty; on an
object whose raw sibling is present and empty the code instead falls
through Python's or to the plain field, so the result is not the empty raw
value. -/
theorem C3_counterexample : ¬ (get_raw_field c3RawEmptyObj "name" [] = []) := by
  decide

/-- C3 (amended): get_raw_field prefers the raw-suffixed sibling field only
when it is present and non-empty (truthy); when the raw sibling is absent
or empty it returns the plain field's value, defaulting to the empty
list. -/
theorem C3_raw_field_preference (obj : HL) (field : String) :
    (∀ v, assocGet obj (field ++ ".raw") = some v → v ≠ [] →
      get_raw_field obj field [] = v) ∧
    ((assocGet obj (field ++ ".raw") = none ∨
      assocGet obj (field ++ ".raw") = some []) →
      get_raw_field obj field [] = (assocGet obj field).getD []) := by
  constructor
  · intro v hv hne
    simp [get_raw_field, hv, hne]
  · rintro (hv | hv) <;> simp [get_raw_field, hv]

/-- C3, witness: on the spec's example object the raw sibling is present
and non-empty, and is returned. -/
theorem C3_raw_field_preference_witness :
    get_raw_field c3PreferObj "name" [] = ["Foo Exact"] :=
  (C3_raw_field_preference c3PreferObj "name").1 ["Foo Exact"] (by decide)
    (by decide)

/-- C4: a session-cache hit returns the cached entry unchanged with no
registry lookup, and two successive resolutions of the same page hit, the
first of which succeeds, perform at most one registry lookup in total. -/
theorem C4_cache_hit_no_lookup (reg : Registry) (cache : Cache) (h : PageHit) :
    (∀ pd, assocGet cache h.project = some pd →
      get_project_data reg cache h = (some pd, cache, 0)) ∧
    ((get_project_data reg cache h).1.isSome = true →
      (get_project_data reg cache h).2.2 +
        (get_project_data reg (get_project_data reg cache h).2.1 h).2.2 ≤ 1) := by
  constructor
  · intro pd hpd
    simp [get_project_data, hpd]
  · intro hs
    cases hc : assocGet cache h.project with
    | some pd => simp [get_project_data, hc]
    | none =>
      cases hr : reg h.project with
      | none => simp [get_project_data, hc, hr] at hs
      | some proj =>
        simp [get_project_data, hc, hr, assocGet_assocSet_same]

/-- C4, witness: with a pre-populated cache the entry is returned with zero
lookups, and a miss-then-hit pair of calls performs one lookup in total. -/
theorem C4_witness :
    get_project_data c4Reg c4Cache c4Hit = (some c4Pd, c4Cache, 0) ∧
    (get_project_data c4Reg [] c4Hit).2.2 +
      (get_project_data c4Reg (get_project_data c4Reg [] c4Hit).2.1 c4Hit).2.2
      ≤ 1 :=
  ⟨(C4_cache_hit_no_lookup c4Reg c4Cache c4Hit).1 c4Pd (by decide),
   (C4_cache_hit_no_lookup c4Reg [] c4Hit).2 (by decide)⟩

/-- C8: when the cache misses and the registry has no project for the slug,
resolution returns None, leaves the session cache exactly as it was (the
absence is not cached), and a later identical call performs the registry
lookup again. -/
theorem C8_miss_not_cached (reg : Registry) (cache : Cache) (h : PageHit)
    (hc : assocGet cache h.project = none) (hr : reg h.project = none) :
    get_project_data reg cache h = (none, cache, 1) ∧
    (get_project_data reg (get_project_data reg cache h).2.1 h).2.2 = 1 := by
  simp [get_project_data, hc, hr]

/-- C8, witness. -/
theorem C8_witness :
    get_project_data c8Reg [] c8Hit = (none, [], 1) ∧
    (get_project_data c8Reg (get_project_data c8Reg [] c8Hit).2.1 c8Hit).2.2
      = 1 :=
  C8_miss_not_cached c8Reg [] c8Hit rfl rfl

/-- C10: the session cache is keyed by project slug alone.  After a hit for
project P at version V1 has been resolved and cached, resolving a hit for P
at a different version V2 returns the entry computed for V1 (V1's slug and
docs URL), performs no registry lookup, and writes nothing new into the
cache. -/
theorem C10_cache_keyed_by_slug_only (reg : Registry) (cache : Cache)
    (h1 h2 : PageHit) (proj : RegProject)
    (hpr : h2.project = h1.project)
    (hc : assocGet cache h1.project = none)
    (hr : reg h1.project = some proj) :
    (get_project_data reg (get_project_data reg cache h1).2.1 h2).1 =
      some ⟨⟨h1.version, proj.docs_url_for h1.version⟩, proj.alias'⟩ ∧
    (get_project_data reg (get_project_data reg cache h1).2.1 h2).1 =
      (get_project_data reg cache h1).1 ∧
    (get_project_data reg (get_project_data reg cache h1).2.1 h2).2.1 =
      (get_project_data reg cache h1).2.1 ∧
    (get_project_data reg (get_project_data reg cache h1).2.1 h2).2.2 = 0 := by
  have h1c : get_project_data reg cache h1 =
      (some ⟨⟨h1.version, proj.docs_url_for h1.version⟩, proj.alias'⟩,
       assocSet cache h1.project
         ⟨⟨h1.version, proj.docs_url_for h1.version⟩, proj.alias'⟩, 1) := by
    simp [get_project_data, hc, hr]
  rw [h1c]
  simp [get_project_data, hpr, assocGet_assocSet_same]

/-- C10, witness: resolving v1 then v2 for the same project returns v1's
cached metadata for the v2 hit with no further lookup. -/
theorem C10_witness :
    (get_project_data c10Reg (get_project_data c10Reg [] c10Hit1).2.1
        c10Hit2).1 =
      some ⟨⟨"v1", "https://proj.example.io/en/v1".toList⟩, none⟩ ∧
    (get_project_data c10Reg (get_project_data c10Reg [] c10Hit1).2.1
        c10Hit2).1 = (get_project_data c10Reg [] c10Hit1).1 ∧
    (get_project_data c10Reg (get_project_data c10Reg [] c10Hit1).2.1
        c10Hit2).2.1 = (get_project_data c10Reg [] c10Hit1).2.1 ∧
    (get_project_data c10Reg (get_project_data c10Reg [] c10Hit1).2.1
        c10Hit2).2.2 = 0 :=
  C10_cache_keyed_by_slug_only c10Reg [] c10Hit1 c10Hit2
    ⟨fun v => ("https://proj.example.io/en/" ++ v).toList, none⟩
    rfl rfl rfl

/-- C7: for every hit of every variant, the highlights map of the shaped
output has exactly the declared keys for that variant, in order, each bound
to a list of fragments (by construction never a bare scalar), regardless of
whether the underlying highlight data exists. -/
theorem C7_highlight_keys (ph : ProjectHit) (reg : Registry) (cache : Cache)
    (h : PageHit) (s d : SubHit) :
    (shapeProject ph).highlights.map Prod.fst =
      ["name", "slug", "description"] ∧
    (shapePage reg cache h).1.highlights.map Prod.fst = ["title"] ∧
    (serializeDomain d).highlights.map Prod.fst = ["name", "content"] ∧
    (serializeSection s).highlights.map Prod.fst = ["title", "content"] :=
  ⟨rfl, rfl, rfl, rfl⟩

/-- C6: for a page hit with resolvable metadata whose docs base URL has the
shape scheme://host followed by an (optionally empty) slash-rooted base
path, the full URL is the base URL with all trailing slashes stripped, one
joining slash, and the (possibly rewritten) relative path with all leading
slashes stripped; get_domain returns exactly scheme://host with no
trailing slash and no path component, get_path returns a slash-rooted
path, and domain concatenated with path reproduces the full URL. -/
theorem C6_link_decomposition (reg : Registry) (cache : Cache) (h : PageHit)
    (pd : ProjectData) (s host p : Str)
    (hpd : (get_project_data reg cache h).1 = some pd)
    (hurl : pd.version.docs_url = s ++ ':' :: '/' :: '/' :: (host ++ p))
    (hs : ∀ c ∈ s, c ≠ ':')
    (hh1 : host ≠ [])
    (hh2 : ∀ c ∈ host, c ≠ '/')
    (hp : p = [] ∨ p.head? = some '/') :
    ∃ fp dom pth,
      (get_full_path reg cache h).1 = some fp ∧
      fp = rstripSlash pd.version.docs_url ++ '/' ::
        lstripSlash (pathAfterRewrite h) ∧
      (get_domain reg cache h).1 = some dom ∧
      (get_path reg cache h).1 = some pth ∧
      dom = s ++ ':' :: '/' :: '/' :: host ∧
      dom.getLast? ≠ some '/' ∧
      pth.head? = some '/' ∧
      dom ++ pth = fp := by
  rcases hgp : get_project_data reg cache h with ⟨o, cc, nn⟩
  rw [hgp] at hpd
  dsimp only at hpd
  subst hpd
  have hfp : get_full_path reg cache h =
      (some (rstripSlash pd.version.docs_url ++ '/' ::
        lstripSlash (pathAfterRewrite h)), cc, nn) := by
    simp only [get_full_path, hgp]
  have hAlast : ∀ c, (s ++ ':' :: '/' :: '/' :: host).getLast? = some c →
      ((c == '/') : Bool) = false := by
    intro c hc
    have e1 : s ++ ':' :: '/' :: '/' :: host =
        (s ++ [':', '/', '/']) ++ host := by simp
    rw [e1, List.getLast?_append] at hc
    cases hg : host.getLast? with
    | some c1 =>
      rw [hg] at hc
      obtain rfl : c1 = c := Option.some_inj.mp hc
      have hmem : c1 ∈ host := List.mem_of_mem_getLast? (by rw [hg]; rfl)
      simpa using hh2 c1 hmem
    | none =>
      rw [List.getLast?_eq_none_iff] at hg
      exact absurd hg hh1
  have e2 : pd.version.docs_url = (s ++ ':' :: '/' :: '/' :: host) ++ p := by
    rw [hurl]
    simp
  have hA : rstripSlash pd.version.docs_url =
      (s ++ ':' :: '/' :: '/' :: host) ++ rstripSlash p := by
    rw [e2, rstripSlash_append _ _ hAlast]
  have hrsthead : (rstripSlash p ++ '/' ::
      lstripSlash (pathAfterRewrite h)).head? = some '/' := by
    rcases hp with hpnil | hphead
    · subst hpnil
      rfl
    · rcases rstripSlash_head p with hnil | hh
      · rw [hnil]
        rfl
      · cases hrp : rstripSlash p with
        | nil => rfl
        | cons a t =>
          rw [hrp] at hh
          rw [hphead] at hh
          obtain rfl : a = '/' := Option.some_inj.mp hh
          rfl
  obtain ⟨rst', hrsteq⟩ : ∃ rst', rstripSlash p ++ '/' ::
      lstripSlash (pathAfterRewrite h) = '/' :: rst' := by
    cases hrv : rstripSlash p ++ '/' :: lstripSlash (pathAfterRewrite h) with
    | nil => rw [hrv] at hrsthead; exact absurd hrsthead (by simp)
    | cons a t =>
      rw [hrv] at hrsthead
      obtain rfl : a = '/' := Option.some_inj.mp hrsthead
      exact ⟨t, rfl⟩
  have e3 : rstripSlash pd.version.docs_url ++ '/' ::
      lstripSlash (pathAfterRewrite h) =
      s ++ ':' :: '/' :: '/' :: (host ++
        (rstripSlash p ++ '/' :: lstripSlash (pathAfterRewrite h))) := by
    rw [hA]
    simp
  have hfull_split : splitFirstSublist [':', '/', '/']
      (rstripSlash pd.version.docs_url ++ '/' ::
        lstripSlash (pathAfterRewrite h)) =
      some (s, host ++ (rstripSlash p ++ '/' ::
        lstripSlash (pathAfterRewrite h))) := by
    rw [e3]
    exact splitFirstSublist_sep s _ hs
  have hq : ∀ c ∈ host, ((!(c == '/')) : Bool) = true := by
    intro c hc
    simp [hh2 c hc]
  have hnet : List.takeWhile (fun c => !(c == '/'))
      (host ++ (rstripSlash p ++ '/' :: lstripSlash (pathAfterRewrite h))) =
      host := by
    rw [takeWhile_append_all _ _ _ hq, hrsteq]
    simp [List.takeWhile_cons]
  have hpathc : List.dropWhile (fun c => !(c == '/'))
      (host ++ (rstripSlash p ++ '/' :: lstripSlash (pathAfterRewrite h))) =
      rstripSlash p ++ '/' :: lstripSlash (pathAfterRewrite h) := by
    rw [dropWhile_append_all _ _ _ hq, hrsteq]
    simp [List.dropWhile_cons]
  have hsplit : urlsplit3 (rstripSlash pd.version.docs_url ++ '/' ::
      lstripSlash (pathAfterRewrite h)) =
      (s, host, rstripSlash p ++ '/' :: lstripSlash (pathAfterRewrite h)) := by
    rw [urlsplit3, hfull_split]
    dsimp only
    rw [hnet, hpathc]
  have hne : (rstripSlash pd.version.docs_url ++ '/' ::
      lstripSlash (pathAfterRewrite h)).isEmpty = false := by
    rw [e3]
    cases s <;> rfl
  have hdom : (get_domain reg cache h).1 =
      some (s ++ ':' :: '/' :: '/' :: host) := by
    simp only [get_domain, hfp, hne, hsplit]
    simp
  have hpath : (get_path reg cache h).1 =
      some (rstripSlash p ++ '/' :: lstripSlash (pathAfterRewrite h)) := by
    simp only [get_path, hfp, hne, hsplit]
    simp
  refine ⟨rstripSlash pd.version.docs_url ++ '/' ::
      lstripSlash (pathAfterRewrite h),
    s ++ ':' :: '/' :: '/' :: host,
    rstripSlash p ++ '/' :: lstripSlash (pathAfterRewrite h),
    by rw [hfp], rfl, hdom, hpath, rfl, ?_, ?_, ?_⟩
  · intro hc
    have := hAlast '/' hc
    simp at this
  · exact hrsthead
  · rw [e3]
    simp

/-- C6, witness: at a concrete registry and hit, the joined URL splits into
a slash-free domain and a slash-rooted path whose concatenation rebuilds
it. -/
theorem C6_witness :
    ∃ fp dom pth,
      (get_full_path c6Reg [] c6Hit).1 = some fp ∧
      fp = rstripSlash c6Pd.version.docs_url ++ '/' ::
        lstripSlash (pathAfterRewrite c6Hit) ∧
      (get_domain c6Reg [] c6Hit).1 = some dom ∧
      (get_path c6Reg [] c6Hit).1 = some pth ∧
      dom = "https".toList ++ ':' :: '/' :: '/' :: "proj.example.io".toList ∧
      dom.getLast? ≠ some '/' ∧
      pth.head? = some '/' ∧
      dom ++ pth = fp :=
  C6_link_decomposition c6Reg [] c6Hit c6Pd "https".toList
    "proj.example.io".toList "/en/latest/".toList (by decide) (by decide)
    (by decide) (by decide) (by decide) (by decide)

end RTD
